import Mathlib

/-!
Verification of the portfolio backend (Express + MongoDB) against its
specification.  The JavaScript source is shallowly embedded: each repository
class method becomes a pure Lean function over explicit collection state
(a list of documents), database documents become association lists from field
names to a small value type, and thrown errors become `Except` values carrying
the thrown message string (the route handlers dispatch on these strings).
-/

namespace FullStackApp

/-! ## Mongo documents as association lists -/

/-- Values stored in document fields: strings, numbers (numeric strings parsed
by `parseInt` are modelled exactly as naturals), ObjectIds (kept as their
24-hex-char string), and dates (modelled as an abstract time stamp). -/
inductive MValue where
  | mStr : String → MValue
  | mNum : Nat → MValue
  | mOid : String → MValue
  | mDate : Nat → MValue
  deriving DecidableEq, Repr

/-- A document is an association list from field names to values (JavaScript
objects have unique keys; theorems that need this take a `Nodup` hypothesis). -/
abbrev MDoc := List (String × MValue)

/-- First value stored under a key, if any. -/
def getField : MDoc → String → Option MValue
  | [], _ => none
  | (k, v) :: rest, key => if k = key then some v else getField rest key

/-- Set one field: replace the first binding of the key, or append it. -/
def setKey : MDoc → String → MValue → MDoc
  | [], k, v => [(k, v)]
  | (k0, v0) :: rest, k, v =>
      if k0 = k then (k, v) :: rest else (k0, v0) :: setKey rest k v

/-- Mongo `$set`: apply every field of the update object in order. -/
def applySet : MDoc → MDoc → MDoc
  | d, [] => d
  | d, (k, v) :: rest => applySet (setKey d k v) rest

/-- JavaScript rest destructuring `const { _id, ...updateData } = data`:
the update object without its `_id` field. -/
def omitId (d : MDoc) : MDoc := d.filter (fun kv => kv.1 ≠ "_id")

/-! ## JavaScript character classes and `parseInt` -/

/-- JS regex `\d`: an ASCII decimal digit. -/
def isDigitJS (c : Char) : Bool := '0' ≤ c && c ≤ '9'

/-- JS regex `[0-9a-fA-F]`: an ASCII hexadecimal digit. -/
def isHexJS (c : Char) : Bool :=
  isDigitJS c || ('a' ≤ c && c ≤ 'f') || ('A' ≤ c && c ≤ 'F')

/-- The test `id.match(/^[0-9a-fA-F]{24}$/)` is truthy. -/
def is24Hex (s : String) : Bool :=
  s.toList.length = 24 && s.toList.all isHexJS

/-- The test `/^\d+$/.test(id)`: at least one character, all digits. -/
def isAllDigits (s : String) : Bool :=
  !s.toList.isEmpty && s.toList.all isDigitJS

/-- JS `parseInt` on an all-digit string: its decimal value (modelled exactly). -/
def parseIntDec (s : String) : Nat :=
  s.toList.foldl (fun a c => a * 10 + (c.toNat - '0'.toNat)) 0

/-! ## Identity Resolver (src/src/portfolio.js)

`getPortfolioById`, `updatePortfolio` and `deletePortfolio` each contain a
verbatim copy of the same classification; each copy is embedded separately. -/

/-- The lookup filter built from a path segment: a primary-key (`_id`) filter,
the `$or` filter `[{id: parseInt(s)}, {id: s}, {slug: s}]`, or a `slug`
equality filter. -/
inductive PortfolioQuery where
  | byObjectId : String → PortfolioQuery
  | byNumericOr : Nat → String → PortfolioQuery
  | bySlug : String → PortfolioQuery
  deriving DecidableEq, Repr

/-- Query construction inside `getPortfolioById`. -/
def getPortfolioQuery (id : String) : PortfolioQuery :=
  if is24Hex id then .byObjectId id
  else if isAllDigits id then .byNumericOr (parseIntDec id) id
  else .bySlug id

/-- Query construction inside `updatePortfolio` (same text as in
`getPortfolioById`). -/
def updatePortfolioQuery (id : String) : PortfolioQuery :=
  if is24Hex id then .byObjectId id
  else if isAllDigits id then .byNumericOr (parseIntDec id) id
  else .bySlug id

/-- Query construction inside `deletePortfolio` (same text as in
`getPortfolioById`). -/
def deletePortfolioQuery (id : String) : PortfolioQuery :=
  if is24Hex id then .byObjectId id
  else if isAllDigits id then .byNumericOr (parseIntDec id) id
  else .bySlug id

/-- Whether a stored document satisfies a resolver filter. -/
def matchesQuery (q : PortfolioQuery) (d : MDoc) : Bool :=
  match q with
  | .byObjectId oid => getField d "_id" = some (.mOid oid)
  | .byNumericOr n s =>
      getField d "id" = some (.mNum n) || getField d "id" = some (.mStr s) ||
        getField d "slug" = some (.mStr s)
  | .bySlug s => getField d "slug" = some (.mStr s)

/-- Claim C1: for every path segment, a 24-hex-char string selects the
primary-key (`_id`) filter; otherwise an all-digit string selects the `$or`
filter over the legacy id field (as parsed number and as string) and the slug
field; otherwise the slug equality filter — identically in
`getPortfolioById`, `updatePortfolio` and `deletePortfolio`. -/
theorem identity_resolver_trichotomy (s : String) :
    (is24Hex s = true →
      getPortfolioQuery s = .byObjectId s ∧
      updatePortfolioQuery s = .byObjectId s ∧
      deletePortfolioQuery s = .byObjectId s) ∧
    (is24Hex s = false → isAllDigits s = true →
      getPortfolioQuery s = .byNumericOr (parseIntDec s) s ∧
      updatePortfolioQuery s = .byNumericOr (parseIntDec s) s ∧
      deletePortfolioQuery s = .byNumericOr (parseIntDec s) s) ∧
    (is24Hex s = false → isAllDigits s = false →
      getPortfolioQuery s = .bySlug s ∧
      updatePortfolioQuery s = .bySlug s ∧
      deletePortfolioQuery s = .bySlug s) := by
  refine ⟨fun h => ?_, fun h1 h2 => ?_, fun h1 h2 => ?_⟩ <;>
    simp [getPortfolioQuery, updatePortfolioQuery, deletePortfolioQuery, *]

/-- Claim C1 witness: each of the three branches at a concrete input. -/
theorem identity_resolver_trichotomy_witness :
    getPortfolioQuery "5f9c2b8e4d1a3c7b9e0f1a2b" = .byObjectId "5f9c2b8e4d1a3c7b9e0f1a2b" ∧
    getPortfolioQuery "42" = .byNumericOr 42 "42" ∧
    getPortfolioQuery "my-project" = .bySlug "my-project" := by
  refine ⟨((identity_resolver_trichotomy "5f9c2b8e4d1a3c7b9e0f1a2b").1 (by decide)).1,
          ?_, ?_⟩
  · have h := ((identity_resolver_trichotomy "42").2.1 (by decide) (by decide)).1
    simpa [parseIntDec] using h
  · exact ((identity_resolver_trichotomy "my-project").2.2 (by decide) (by decide)).1

/-! ## Portfolio update and delete (src/src/portfolio.js)

Both methods resolve the query, run one collection operation, and throw
`'Portfolio not found'` when nothing matched; the surrounding `catch` block
replaces any thrown error with a generic message (`'Failed to update
portfolio'` / `'Failed to delete portfolio'`) before it reaches the route. -/

/-- Mongo `updateOne(query, {$set: u})` with bookkeeping:
update the first matching document, returning the old document, the new
document and the new collection; `none` models `matchedCount === 0`. -/
def updateFirstMatch (q : PortfolioQuery) (f : MDoc → MDoc) :
    List MDoc → Option (MDoc × MDoc × List MDoc)
  | [] => none
  | d :: rest =>
      if matchesQuery q d then some (d, f d, f d :: rest)
      else
        match updateFirstMatch q f rest with
        | none => none
        | some (o, n, rest0) => some (o, n, d :: rest0)

/-- Mongo `deleteOne(query)`: remove the first matching document; `none` models
`deletedCount === 0`. -/
def deleteFirstMatch (q : PortfolioQuery) : List MDoc → Option (List MDoc)
  | [] => none
  | d :: rest =>
      if matchesQuery q d then some rest
      else
        match deleteFirstMatch q rest with
        | none => none
        | some rest0 => some (d :: rest0)

/-- Body of the `try` block of `updatePortfolio`: strips `_id` from the
client payload, `$set`-applies the rest to the first match, and throws
`'Portfolio not found'` when nothing matched. -/
def updatePortfolioTry (coll : List MDoc) (id : String) (data : MDoc) :
    Except String (MDoc × MDoc × List MDoc) :=
  match updateFirstMatch (updatePortfolioQuery id) (fun d => applySet d (omitId data)) coll with
  | none => .error "Portfolio not found"
  | some r => .ok r

/-- Method `updatePortfolio`: the `catch` block replaces every thrown error with
`'Failed to update portfolio'`. -/
def updatePortfolio (coll : List MDoc) (id : String) (data : MDoc) :
    Except String (MDoc × MDoc × List MDoc) :=
  match updatePortfolioTry coll id data with
  | .error _ => .error "Failed to update portfolio"
  | .ok r => .ok r

/-- Body of the `try` block of `deletePortfolio`. -/
def deletePortfolioTry (coll : List MDoc) (id : String) :
    Except String (List MDoc) :=
  match deleteFirstMatch (deletePortfolioQuery id) coll with
  | none => .error "Portfolio not found"
  | some rest => .ok rest

/-- Method `deletePortfolio`: the `catch` block replaces every thrown error with
`'Failed to delete portfolio'`. -/
def deletePortfolio (coll : List MDoc) (id : String) :
    Except String (List MDoc) :=
  match deletePortfolioTry coll id with
  | .error _ => .error "Failed to delete portfolio"
  | .ok r => .ok r

/-- Status selection in the `PUT /api/portfolios/:id` and
`DELETE /api/portfolios/:id` route handlers:
`error.message === 'Portfolio not found' ? 404 : 500`. -/
def portfolioRouteStatus {α : Type} (r : Except String α) : Nat :=
  match r with
  | .ok _ => 200
  | .error msg => if msg = "Portfolio not found" then 404 else 500

/-- Claim C3: refuted on the code.  `updatePortfolio` and `deletePortfolio`
throw `'Portfolio not found'` inside their own `try` block, and the `catch`
block replaces the message with the generic failure message, so at the route
boundary a missing document is indistinguishable from a database failure and
the route's 404 branch never fires: updating or deleting against an empty
collection answers HTTP 500, not 404. -/
theorem portfolio_missing_doc_answers_500 :
    updatePortfolio [] "my-project" [("title", .mStr "T")] =
      .error "Failed to update portfolio" ∧
    portfolioRouteStatus (updatePortfolio [] "my-project" [("title", .mStr "T")]) = 500 ∧
    deletePortfolio [] "my-project" = .error "Failed to delete portfolio" ∧
    portfolioRouteStatus (deletePortfolio [] "my-project") = 500 := by
  refine ⟨rfl, rfl, rfl, rfl⟩

/-! ## Association-list lemmas -/

theorem getField_setKey_self (d : MDoc) (k : String) (v : MValue) :
    getField (setKey d k v) k = some v := by
  induction d with
  | nil => simp [setKey, getField]
  | cons kv rest ih =>
      by_cases h : kv.1 = k <;> simp [setKey, getField, h, ih]

theorem getField_setKey_ne (d : MDoc) (k k0 : String) (v : MValue)
    (h : k0 ≠ k) : getField (setKey d k v) k0 = getField d k0 := by
  induction d with
  | nil => simp [setKey, getField, Ne.symm h]
  | cons kv rest ih =>
      obtain ⟨k1, v1⟩ := kv
      by_cases hk : k1 = k
      · subst hk
        simp [setKey, getField, Ne.symm h]
      · by_cases hk0 : k1 = k0 <;> simp [setKey, getField, hk, hk0, ih, h]

theorem getField_eq_none_of_not_mem (d : MDoc) (k : String)
    (h : k ∉ d.map Prod.fst) : getField d k = none := by
  induction d with
  | nil => rfl
  | cons kv rest ih =>
      simp only [List.map_cons, List.mem_cons] at h
      push_neg at h
      simp [getField, Ne.symm h.1, ih h.2]

/-- Applying `$set` of an update object with distinct keys: a key set by the update
takes its value from the update, every other key keeps the old value. -/
theorem getField_applySet (u : MDoc) (d : MDoc) (k : String)
    (hu : (u.map Prod.fst).Nodup) :
    getField (applySet d u) k =
      match getField u k with
      | some v => some v
      | none => getField d k := by
  induction u generalizing d with
  | nil => simp [applySet, getField]
  | cons kv rest ih =>
      obtain ⟨k0, v0⟩ := kv
      simp only [List.map_cons, List.nodup_cons] at hu
      by_cases hk : k0 = k
      · subst hk
        have hnone : getField rest k0 = none :=
          getField_eq_none_of_not_mem rest k0 hu.1
        simp [applySet, getField, ih _ hu.2, hnone, getField_setKey_self]
      · simp [applySet, getField, hk, ih _ hu.2,
              getField_setKey_ne d k0 k v0 (fun he => hk he.symm)]

theorem getField_omitId_id (d : MDoc) : getField (omitId d) "_id" = none := by
  induction d with
  | nil => rfl
  | cons kv rest ih =>
      obtain ⟨k1, v1⟩ := kv
      simp only [omitId, List.filter_cons] at ih ⊢
      by_cases hk : k1 = "_id"
      · simpa [hk] using ih
      · simpa [hk, getField] using ih

theorem getField_omitId_ne (d : MDoc) (k : String) (h : k ≠ "_id") :
    getField (omitId d) k = getField d k := by
  induction d with
  | nil => rfl
  | cons kv rest ih =>
      obtain ⟨k1, v1⟩ := kv
      simp only [omitId, List.filter_cons] at ih ⊢
      by_cases hk : k1 = "_id"
      · subst hk
        simpa [getField, Ne.symm h] using ih
      · by_cases hkk : k1 = k
        · subst hkk
          simp [hk, getField, h]
        · simpa [hk, getField, hkk] using ih

theorem omitId_keys_nodup (d : MDoc) (h : (d.map Prod.fst).Nodup) :
    ((omitId d).map Prod.fst).Nodup := by
  have hsub : (omitId d).Sublist d := List.filter_sublist d
  exact h.sublist (hsub.map Prod.fst)

theorem updateFirstMatch_ok (q : PortfolioQuery) (f : MDoc → MDoc)
    (coll : List MDoc) (o n : MDoc) (coll0 : List MDoc)
    (h : updateFirstMatch q f coll = some (o, n, coll0)) :
    n = f o ∧ matchesQuery q o = true := by
  induction coll generalizing coll0 with
  | nil => simp [updateFirstMatch] at h
  | cons d rest ih =>
      simp only [updateFirstMatch] at h
      by_cases hm : matchesQuery q d = true
      · rw [if_pos hm] at h
        simp only [Option.some.injEq, Prod.mk.injEq] at h
        obtain ⟨h1, h2, -⟩ := h
        subst h1
        exact ⟨h2.symm, hm⟩
      · rw [if_neg hm] at h
        cases hrec : updateFirstMatch q f rest with
        | none => rw [hrec] at h; cases h
        | some r =>
            obtain ⟨o1, n1, rest1⟩ := r
            rw [hrec] at h
            simp only [Option.some.injEq, Prod.mk.injEq] at h
            obtain ⟨h1, h2, -⟩ := h
            subst h1
            subst h2
            exact ih rest1 hrec

/-- Claim C6: a successful portfolio update applies exactly the
client-supplied fields with any client-supplied `_id` removed — the stored
primary key is unchanged even if the request body carries an `_id`, every
other field takes the client's value when supplied and keeps the old value
otherwise, and in particular the slug is exactly the client's slug field (or
the old slug), never recomputed from a supplied title. -/
theorem update_strips_client_id (coll : List MDoc) (id : String) (data : MDoc)
    (o n : MDoc) (coll0 : List MDoc)
    (hnd : (data.map Prod.fst).Nodup)
    (h : updatePortfolio coll id data = .ok (o, n, coll0)) :
    getField n "_id" = getField o "_id" ∧
    (∀ k, k ≠ "_id" →
      getField n k =
        match getField data k with
        | some v => some v
        | none => getField o k) ∧
    getField n "slug" =
      (match getField data "slug" with
       | some v => some v
       | none => getField o "slug") := by
  have h0 : updatePortfolioTry coll id data = .ok (o, n, coll0) := by
    unfold updatePortfolio at h
    cases h1 : updatePortfolioTry coll id data with
    | error e => rw [h1] at h; exact absurd h (by simp)
    | ok r => rw [h1] at h; cases h; rfl
  have h2 : updateFirstMatch (updatePortfolioQuery id)
      (fun d => applySet d (omitId data)) coll = some (o, n, coll0) := by
    unfold updatePortfolioTry at h0
    cases h3 : updateFirstMatch (updatePortfolioQuery id)
        (fun d => applySet d (omitId data)) coll with
    | none => rw [h3] at h0; exact absurd h0 (by simp)
    | some r => rw [h3] at h0; cases h0; rfl
  obtain ⟨hn, -⟩ := updateFirstMatch_ok _ _ _ _ _ _ h2
  have hnd0 := omitId_keys_nodup data hnd
  have hget : ∀ k, getField n k =
      match getField (omitId data) k with
      | some v => some v
      | none => getField o k := by
    intro k
    rw [hn]
    exact getField_applySet (omitId data) o k hnd0
  refine ⟨?_, fun k hk => ?_, ?_⟩
  · rw [hget "_id", getField_omitId_id]
  · rw [hget k, getField_omitId_ne data k hk]
  · rw [hget "slug", getField_omitId_ne data "slug" (by decide)]

/-- Claim C6 witness: updating the document with slug `"p"` by a payload that
smuggles in a new `_id` leaves the stored `_id` untouched. -/
theorem update_strips_client_id_witness :
    getField
      (applySet [("_id", MValue.mOid "5f9c2b8e4d1a3c7b9e0f1a2b"), ("slug", MValue.mStr "p")]
        (omitId [("_id", MValue.mOid "ffffffffffffffffffffffff"), ("title", MValue.mStr "New")]))
      "_id" =
    getField [("_id", MValue.mOid "5f9c2b8e4d1a3c7b9e0f1a2b"), ("slug", MValue.mStr "p")] "_id" :=
  (update_strips_client_id
    [[("_id", MValue.mOid "5f9c2b8e4d1a3c7b9e0f1a2b"), ("slug", MValue.mStr "p")]]
    "p"
    [("_id", MValue.mOid "ffffffffffffffffffffffff"), ("title", MValue.mStr "New")]
    [("_id", MValue.mOid "5f9c2b8e4d1a3c7b9e0f1a2b"), ("slug", MValue.mStr "p")]
    (applySet [("_id", MValue.mOid "5f9c2b8e4d1a3c7b9e0f1a2b"), ("slug", MValue.mStr "p")]
      (omitId [("_id", MValue.mOid "ffffffffffffffffffffffff"), ("title", MValue.mStr "New")]))
    [applySet [("_id", MValue.mOid "5f9c2b8e4d1a3c7b9e0f1a2b"), ("slug", MValue.mStr "p")]
      (omitId [("_id", MValue.mOid "ffffffffffffffffffffffff"), ("title", MValue.mStr "New")])]
    (by decide) (by rfl)).1

/-! ## Articles (src/unnamed owner.js: OwnerAPI)

An article document has a name, an upvote counter, a comment list, and an
optional `upvodIds` array (the seeded articles do not carry the field; the
first `$push` creates it, and `article.upvodIds?.includes(uid)` is false when
the field is absent). -/

structure Article where
  articleName : String
  upvotes : Nat
  comments : List String
  upvodIds : Option (List String)
  deriving DecidableEq, Repr

/-- JavaScript truthiness of `!uid`: the uid is absent (`undefined`) or the
empty string. -/
def jsFalsyStr : Option String → Bool
  | none => true
  | some s => s = ""

/-- Mongo `findOneAndUpdate` by article name with returnDocument after:
update the first article with the given name, returning the updated document
(`none` when nothing matched) and the new collection. -/
def findOneAndUpdateArticle (articles : List Article) (name : String)
    (f : Article → Article) : Option Article × List Article :=
  match articles with
  | [] => (none, [])
  | a :: rest =>
      if a.articleName == name then (some (f a), f a :: rest)
      else
        let r := findOneAndUpdateArticle rest name f
        (r.1, a :: r.2)

/-- The update document of `upvoteArticle`:
`{$inc: {upvotes: 1}, $push: {upvodIds: uid}}`. -/
def upvoteUpdate (u : String) (b : Article) : Article :=
  { b with upvotes := b.upvotes + 1, upvodIds := some (b.upvodIds.getD [] ++ [u]) }

/-- Method `OwnerAPI.upvoteArticle`: `findOne` by name, then the three guard checks
in source order (`!uid`, `!article`, `upvodIds?.includes(uid)`), then the
conditional update.  The `catch` block rethrows the original error, so the
thrown message survives to the route handler. -/
def upvoteArticle (articles : List Article) (name : String)
    (uid : Option String) : Except String (Option Article × List Article) :=
  let article := articles.find? (fun a => a.articleName == name)
  if jsFalsyStr uid then .error "not have uid"
  else
    match article with
    | none => .error "Article not found"
    | some a =>
        if (a.upvodIds.getD []).contains (uid.getD "") then
          .error "Already upvoted"
        else
          .ok (findOneAndUpdateArticle articles name (upvoteUpdate (uid.getD "")))

/-- The article collection after a call to `upvoteArticle`: an error is a
rejected request, which writes nothing. -/
def articlesAfterUpvote (articles : List Article) (name : String)
    (uid : Option String) : List Article :=
  match upvoteArticle articles name uid with
  | .ok (_, coll) => coll
  | .error _ => articles

/-- Method `OwnerAPI.addComment`: unconditionally `$push` the comment text. -/
def addComment (articles : List Article) (name : String) (text : String) :
    Option Article × List Article :=
  findOneAndUpdateArticle articles name
    (fun b => { b with comments := b.comments ++ [text] })

/-- The three seed articles of `OwnerAPI.initializeArticles`. -/
def defaultArticles : List Article :=
  [{ articleName := "learn-react", upvotes := 0, comments := [], upvodIds := none },
   { articleName := "learn-node", upvotes := 0, comments := [], upvodIds := none },
   { articleName := "learn-mongodb", upvotes := 0, comments := [], upvodIds := none }]

/-- Method `OwnerAPI.initializeArticles`: insert the three defaults when the
collection is empty. -/
def initializeArticles (articles : List Article) : List Article :=
  if articles.length = 0 then defaultArticles else articles

/-- Status selection in the `PUT /api/articles/:name/upvote` route handler. -/
def upvoteRouteStatus {α : Type} (r : Except String α) : Nat :=
  match r with
  | .ok _ => 200
  | .error msg =>
      if msg = "not have uid" then 401
      else if msg = "Article not found" then 404
      else if msg = "Already upvoted" then 403
      else 500

theorem findOneAndUpdateArticle_fst (articles : List Article) (name : String)
    (f : Article → Article) (a : Article)
    (h : articles.find? (fun b => b.articleName == name) = some a) :
    (findOneAndUpdateArticle articles name f).1 = some (f a) := by
  induction articles with
  | nil => simp at h
  | cons c rest ih =>
      by_cases hm : (c.articleName == name) = true
      · simp only [List.find?, hm] at h
        cases h
        simp [findOneAndUpdateArticle, hm]
      · have hm0 : (c.articleName == name) = false := by simpa using hm
        simp only [List.find?, hm0] at h
        simp [findOneAndUpdateArticle, hm0, ih h]

theorem findOneAndUpdateArticle_mem (articles : List Article) (name : String)
    (f : Article → Article) (b : Article)
    (hb : b ∈ (findOneAndUpdateArticle articles name f).2) :
    b ∈ articles ∨ ∃ a, a ∈ articles ∧ b = f a := by
  induction articles with
  | nil => simp [findOneAndUpdateArticle] at hb
  | cons c rest ih =>
      by_cases hm : (c.articleName == name) = true
      · simp only [findOneAndUpdateArticle, hm, if_true] at hb
        rcases List.mem_cons.mp hb with hb | hb
        · exact Or.inr ⟨c, List.mem_cons_self c rest, hb⟩
        · exact Or.inl (List.mem_cons_of_mem c hb)
      · have hm0 : (c.articleName == name) = false := by simpa using hm
        simp only [findOneAndUpdateArticle, hm0, Bool.false_eq_true,
          if_false] at hb
        rcases List.mem_cons.mp hb with hb | hb
        · exact Or.inl (hb ▸ List.mem_cons_self c rest)
        · rcases ih hb with h | ⟨a, ha, hfa⟩
          · exact Or.inl (List.mem_cons_of_mem c h)
          · exact Or.inr ⟨a, List.mem_cons_of_mem c ha, hfa⟩

theorem findOneAndUpdateArticle_mem_of_find (articles : List Article)
    (name : String) (f : Article → Article) (a : Article)
    (h : articles.find? (fun b => b.articleName == name) = some a) :
    ∀ b ∈ (findOneAndUpdateArticle articles name f).2, b ∈ articles ∨ b = f a := by
  induction articles with
  | nil => simp at h
  | cons c rest ih =>
      intro b hb
      by_cases hm : (c.articleName == name) = true
      · simp only [List.find?, hm] at h
        cases h
        simp only [findOneAndUpdateArticle, hm, if_true] at hb
        rcases List.mem_cons.mp hb with hb | hb
        · exact Or.inr hb
        · exact Or.inl (List.mem_cons_of_mem _ hb)
      · have hm0 : (c.articleName == name) = false := by simpa using hm
        simp only [List.find?, hm0] at h
        simp only [findOneAndUpdateArticle, hm0, Bool.false_eq_true,
          if_false] at hb
        rcases List.mem_cons.mp hb with hb | hb
        · exact Or.inl (hb ▸ List.mem_cons_self c rest)
        · rcases ih h b hb with hmem | heq
          · exact Or.inl (List.mem_cons_of_mem _ hmem)
          · exact Or.inr heq

theorem findOneAndUpdateArticle_find (articles : List Article) (name : String)
    (f : Article → Article) (hf : ∀ b, (f b).articleName = b.articleName)
    (a : Article)
    (h : articles.find? (fun b => b.articleName == name) = some a) :
    ((findOneAndUpdateArticle articles name f).2).find?
      (fun b => b.articleName == name) = some (f a) := by
  induction articles with
  | nil => simp at h
  | cons c rest ih =>
      by_cases hm : (c.articleName == name) = true
      · simp only [List.find?, hm] at h
        cases h
        have hm1 : ((f a).articleName == name) = true := by
          rw [hf a]; exact hm
        simp only [findOneAndUpdateArticle, hm, if_true, List.find?, hm1]
      · have hm0 : (c.articleName == name) = false := by simpa using hm
        simp only [List.find?, hm0] at h
        simp only [findOneAndUpdateArticle, hm0, Bool.false_eq_true, if_false,
          List.find?]
        exact ih h

/-- Claim C2: `upvoteArticle` rejects a falsy voter id with `'not have uid'`
(mapped to 401), a missing article with `'Article not found'` (404), a voter
id already present in `upvodIds` with `'Already upvoted'` (403); otherwise it
increments the upvote count by one and appends the voter id to the set. -/
theorem upvote_error_taxonomy (articles : List Article) (name : String)
    (uid : Option String) :
    (jsFalsyStr uid = true →
      upvoteArticle articles name uid = .error "not have uid" ∧
      upvoteRouteStatus (upvoteArticle articles name uid) = 401) ∧
    (jsFalsyStr uid = false →
      articles.find? (fun a => a.articleName == name) = none →
      upvoteArticle articles name uid = .error "Article not found" ∧
      upvoteRouteStatus (upvoteArticle articles name uid) = 404) ∧
    (∀ a, jsFalsyStr uid = false →
      articles.find? (fun b => b.articleName == name) = some a →
      (a.upvodIds.getD []).contains (uid.getD "") = true →
      upvoteArticle articles name uid = .error "Already upvoted" ∧
      upvoteRouteStatus (upvoteArticle articles name uid) = 403) ∧
    (∀ a, jsFalsyStr uid = false →
      articles.find? (fun b => b.articleName == name) = some a →
      (a.upvodIds.getD []).contains (uid.getD "") = false →
      upvoteArticle articles name uid =
        .ok (findOneAndUpdateArticle articles name (upvoteUpdate (uid.getD ""))) ∧
      (findOneAndUpdateArticle articles name (upvoteUpdate (uid.getD ""))).1 =
        some (upvoteUpdate (uid.getD "") a) ∧
      (upvoteUpdate (uid.getD "") a).upvotes = a.upvotes + 1 ∧
      (upvoteUpdate (uid.getD "") a).upvodIds =
        some (a.upvodIds.getD [] ++ [uid.getD ""])) := by
  refine ⟨fun hf => ?_, fun hf hfind => ?_, fun a hf hfind hmem => ?_,
          fun a hf hfind hmem => ?_⟩
  · constructor <;> simp [upvoteArticle, upvoteRouteStatus, hf]
  · constructor <;> simp [upvoteArticle, upvoteRouteStatus, hf, hfind]
  · have hmem1 : uid.getD "" ∈ a.upvodIds.getD [] := by simpa using hmem
    constructor <;> simp [upvoteArticle, upvoteRouteStatus, hf, hfind, hmem1]
  · have hmem1 : uid.getD "" ∉ a.upvodIds.getD [] := by simpa using hmem
    refine ⟨by simp [upvoteArticle, hf, hfind, hmem1], ?_, rfl, rfl⟩
    exact findOneAndUpdateArticle_fst articles name _ a hfind

/-- Claim C2 witness: the four branches at concrete inputs over the seeded
collection. -/
theorem upvote_error_taxonomy_witness :
    (upvoteArticle defaultArticles "learn-react" none = .error "not have uid" ∧
      upvoteRouteStatus (upvoteArticle defaultArticles "learn-react" none) = 401) ∧
    (upvoteArticle defaultArticles "no-such-article" (some "u1") =
        .error "Article not found" ∧
      upvoteRouteStatus
        (upvoteArticle defaultArticles "no-such-article" (some "u1")) = 404) ∧
    (upvoteArticle
        [{ articleName := "learn-react", upvotes := 1, comments := [],
           upvodIds := some ["u1"] }] "learn-react" (some "u1") =
        .error "Already upvoted" ∧
      upvoteRouteStatus
        (upvoteArticle
          [{ articleName := "learn-react", upvotes := 1, comments := [],
             upvodIds := some ["u1"] }] "learn-react" (some "u1")) = 403) ∧
    upvoteArticle defaultArticles "learn-react" (some "u1") =
      .ok (findOneAndUpdateArticle defaultArticles "learn-react"
        (upvoteUpdate "u1")) := by
  refine ⟨(upvote_error_taxonomy defaultArticles "learn-react" none).1 (by decide),
    (upvote_error_taxonomy defaultArticles "no-such-article" (some "u1")).2.1
      (by decide) (by decide),
    ((upvote_error_taxonomy
        [{ articleName := "learn-react", upvotes := 1, comments := [],
           upvodIds := some ["u1"] }] "learn-react" (some "u1")).2.2.1
      { articleName := "learn-react", upvotes := 1, comments := [],
        upvodIds := some ["u1"] } (by decide) (by decide) (by decide)),
    ((upvote_error_taxonomy defaultArticles "learn-react" (some "u1")).2.2.2
      { articleName := "learn-react", upvotes := 0, comments := [],
        upvodIds := none } (by decide) (by decide) (by decide)).1⟩

/-- The article invariant of the data model: each voter id appears at most
once in the voter-id set, and the stored upvote count equals the size of the
set (an absent `upvodIds` field is the empty set). -/
def voterInv (a : Article) : Prop :=
  (a.upvodIds.getD []).Nodup ∧ a.upvotes = (a.upvodIds.getD []).length

instance (a : Article) : Decidable (voterInv a) := by
  unfold voterInv
  infer_instance

/-- Claim C4: seeding, commenting and upvoting preserve the voter invariant,
and after a successful upvote a second upvote of the same article by the same
voter id fails with `'Already upvoted'` and writes nothing, leaving the
stored count unchanged. -/
theorem article_ops_preserve_voter_invariant (articles : List Article)
    (hinv : ∀ a ∈ articles, voterInv a) :
    (∀ a ∈ initializeArticles articles, voterInv a) ∧
    (∀ name text b, b ∈ (addComment articles name text).2 → voterInv b) ∧
    (∀ name uid r coll0, upvoteArticle articles name uid = .ok (r, coll0) →
      (∀ b ∈ coll0, voterInv b) ∧
      upvoteArticle coll0 name uid = .error "Already upvoted" ∧
      articlesAfterUpvote coll0 name uid = coll0) := by
  refine ⟨?_, ?_, ?_⟩
  · intro a ha
    unfold initializeArticles at ha
    by_cases h0 : articles.length = 0
    · rw [if_pos h0] at ha
      have hd : ∀ b ∈ defaultArticles, voterInv b := by decide
      exact hd a ha
    · rw [if_neg h0] at ha
      exact hinv a ha
  · intro name text b hb
    rcases findOneAndUpdateArticle_mem articles name _ b hb with h | ⟨a, ha, rfl⟩
    · exact hinv b h
    · have := hinv a ha
      simpa [voterInv] using this
  · intro name uid r coll0 h
    unfold upvoteArticle at h
    by_cases hfal : jsFalsyStr uid = true
    · rw [if_pos hfal] at h
      cases h
    · rw [if_neg hfal] at h
      cases hfind : articles.find? (fun a => a.articleName == name) with
      | none => rw [hfind] at h; cases h
      | some a =>
          rw [hfind] at h
          simp only [] at h
          by_cases hmem : ((a.upvodIds.getD []).contains (uid.getD "")) = true
          · rw [if_pos hmem] at h
            cases h
          · rw [if_neg hmem] at h
            have hmem1 : uid.getD "" ∉ a.upvodIds.getD [] := by simpa using hmem
            have ha : a ∈ articles := List.mem_of_find?_eq_some hfind
            obtain ⟨hnd, hcnt⟩ := hinv a ha
            simp only [Except.ok.injEq] at h
            have hcoll : coll0 =
                (findOneAndUpdateArticle articles name
                  (upvoteUpdate (uid.getD ""))).2 := by rw [h]
            subst hcoll
            have hinvNew : voterInv (upvoteUpdate (uid.getD "") a) := by
              constructor
              · simpa [upvoteUpdate, List.nodup_append] using ⟨hnd, hmem1⟩
              · simp [upvoteUpdate, hcnt]
            have hfind2 :
                ((findOneAndUpdateArticle articles name
                    (upvoteUpdate (uid.getD ""))).2).find?
                  (fun b => b.articleName == name) =
                some (upvoteUpdate (uid.getD "") a) :=
              findOneAndUpdateArticle_find articles name
                (upvoteUpdate (uid.getD "")) (fun b => rfl) a hfind
            have hmem2 :
                ((upvoteUpdate (uid.getD "") a).upvodIds.getD []).contains
                  (uid.getD "") = true := by
              simp [upvoteUpdate]
            have hsecond :
                upvoteArticle
                  (findOneAndUpdateArticle articles name
                    (upvoteUpdate (uid.getD ""))).2 name uid =
                .error "Already upvoted" := by
              unfold upvoteArticle
              rw [if_neg hfal, hfind2]
              simp only []
              rw [if_pos hmem2]
            refine ⟨?_, hsecond, ?_⟩
            · intro b hb
              rcases findOneAndUpdateArticle_mem_of_find articles name _ a
                  hfind b hb with hmem3 | rfl
              · exact hinv b hmem3
              · exact hinvNew
            · unfold articlesAfterUpvote
              rw [hsecond]

/-- Claim C4 witness: from the seeded collection, an upvote of `learn-react`
by `u1` succeeds, yields an invariant-respecting collection, and a second
upvote by the same voter fails with `'Already upvoted'` without a write. -/
theorem article_ops_preserve_voter_invariant_witness :
    upvoteArticle
      [{ articleName := "learn-react", upvotes := 1, comments := [],
         upvodIds := some ["u1"] },
       { articleName := "learn-node", upvotes := 0, comments := [],
         upvodIds := none },
       { articleName := "learn-mongodb", upvotes := 0, comments := [],
         upvodIds := none }] "learn-react" (some "u1") =
      .error "Already upvoted" ∧
    articlesAfterUpvote
      [{ articleName := "learn-react", upvotes := 1, comments := [],
         upvodIds := some ["u1"] },
       { articleName := "learn-node", upvotes := 0, comments := [],
         upvodIds := none },
       { articleName := "learn-mongodb", upvotes := 0, comments := [],
         upvodIds := none }] "learn-react" (some "u1") =
      [{ articleName := "learn-react", upvotes := 1, comments := [],
         upvodIds := some ["u1"] },
       { articleName := "learn-node", upvotes := 0, comments := [],
         upvodIds := none },
       { articleName := "learn-mongodb", upvotes := 0, comments := [],
         upvodIds := none }] := by
  have h := ((article_ops_preserve_voter_invariant defaultArticles
      (by decide)).2.2 "learn-react" (some "u1")
      (some { articleName := "learn-react", upvotes := 1, comments := [],
              upvodIds := some ["u1"] })
      [{ articleName := "learn-react", upvotes := 1, comments := [],
         upvodIds := some ["u1"] },
       { articleName := "learn-node", upvotes := 0, comments := [],
         upvodIds := none },
       { articleName := "learn-mongodb", upvotes := 0, comments := [],
         upvodIds := none }] (by rfl))
  exact ⟨h.2.1, h.2.2⟩

/-! ## Slug derivation (createPortfolio in src/src/portfolio.js)

`portfolioData.slug = portfolioData.title.toLowerCase().replace(/\s+/g, '_')`
runs only when `portfolioData.title` is truthy (present and non-empty). -/

/-- JS regex `\s` on the whitespace characters that occur in ASCII titles
(space, tab, newline, carriage return). -/
def isWsJS (c : Char) : Bool := c = ' ' || c = '\t' || c = '\n' || c = '\r'

/-- Worker for `replace(/\s+/g, '_')`: the flag records whether the previous
character belonged to a whitespace run, so each maximal run emits exactly one
underscore. -/
def collapseWsAux : Bool → List Char → List Char
  | _, [] => []
  | prevWs, c :: rest =>
      if isWsJS c then
        if prevWs then collapseWsAux true rest
        else '_' :: collapseWsAux true rest
      else c :: collapseWsAux false rest

/-- JS `replace(/\s+/g, '_')`: every maximal whitespace run becomes one
underscore. -/
def replaceWsRuns (l : List Char) : List Char := collapseWsAux false l

/-- Slug derivation in `createPortfolio`:
`title.toLowerCase().replace(/\s+/g, '_')` (`toLowerCase` maps each
character to lower case). -/
def slugify (title : String) : String :=
  String.mk (replaceWsRuns (title.toList.map Char.toLower))

/-- Declarative reading of the claim's transform: the output arises from the
input by keeping non-whitespace characters and replacing every maximal
whitespace run (nonempty, all-whitespace, not followed by more whitespace)
with a single underscore. -/
inductive WsCollapse : List Char → List Char → Prop where
  | nil : WsCollapse [] []
  | char {c : Char} {l l0 : List Char} :
      isWsJS c = false → WsCollapse l l0 → WsCollapse (c :: l) (c :: l0)
  | run {r l l0 : List Char} :
      r ≠ [] → (∀ c ∈ r, isWsJS c = true) →
      (∀ d ls, l = d :: ls → isWsJS d = false) →
      WsCollapse l l0 → WsCollapse (r ++ l) ('_' :: l0)

theorem dropWhile_head_false {p : Char → Bool} (l : List Char) (d : Char)
    (ls : List Char) (h : l.dropWhile p = d :: ls) : p d = false := by
  induction l with
  | nil => simp at h
  | cons c rest ih =>
      by_cases hc : p c = true
      · rw [List.dropWhile_cons_of_pos hc] at h
        exact ih h
      · have hc0 : p c = false := by simpa using hc
        rw [List.dropWhile_cons_of_neg (by simp [hc0])] at h
        cases h
        exact hc0

theorem mem_takeWhile_ws {p : Char → Bool} (l : List Char) (c : Char)
    (h : c ∈ l.takeWhile p) : p c = true := by
  induction l with
  | nil => simp at h
  | cons d rest ih =>
      by_cases hd : p d = true
      · rw [List.takeWhile_cons_of_pos hd] at h
        rcases List.mem_cons.mp h with rfl | h
        · exact hd
        · exact ih h
      · rw [List.takeWhile_cons_of_neg (by simpa using hd)] at h
        simp at h

theorem dropWhile_length_le {p : Char → Bool} (l : List Char) :
    (l.dropWhile p).length ≤ l.length := by
  induction l with
  | nil => simp
  | cons c rest ih =>
      by_cases hc : p c = true
      · rw [List.dropWhile_cons_of_pos hc]
        exact Nat.le_succ_of_le ih
      · rw [List.dropWhile_cons_of_neg (by simpa using hc)]

theorem collapseWsAux_true_dropWhile (l : List Char) :
    collapseWsAux true l = collapseWsAux false (l.dropWhile isWsJS) := by
  induction l with
  | nil => rfl
  | cons c rest ih =>
      by_cases hc : isWsJS c = true
      · rw [List.dropWhile_cons_of_pos hc]
        simpa [collapseWsAux, hc] using ih
      · have hc0 : isWsJS c = false := by simpa using hc
        rw [List.dropWhile_cons_of_neg (by simp [hc0])]
        simp [collapseWsAux, hc0]

/-- The implementation of `replace(/\s+/g, '_')` realises the maximal-run
collapse relation. -/
theorem wsCollapse_replaceWsRuns (l : List Char) :
    WsCollapse l (replaceWsRuns l) := by
  have key : ∀ n l, List.length l ≤ n → WsCollapse l (collapseWsAux false l) := by
    intro n
    induction n with
    | zero =>
        intro l hl
        have : l = [] := List.length_eq_zero.mp (Nat.le_zero.mp hl)
        subst this
        exact WsCollapse.nil
    | succ n ih =>
        intro l hl
        match l with
        | [] => exact WsCollapse.nil
        | c :: rest =>
            by_cases hc : isWsJS c = true
            · have hshape : c :: rest =
                  (c :: rest.takeWhile isWsJS) ++ rest.dropWhile isWsJS := by
                simp [List.takeWhile_append_dropWhile]
              have hout : collapseWsAux false (c :: rest) =
                  '_' :: collapseWsAux false (rest.dropWhile isWsJS) := by
                simp [collapseWsAux, hc, collapseWsAux_true_dropWhile]
              rw [hout, hshape]
              refine WsCollapse.run (by simp) ?_ ?_ ?_
              · intro d hd
                rcases List.mem_cons.mp hd with rfl | hd
                · exact hc
                · exact mem_takeWhile_ws rest d hd
              · intro d ls hdl
                exact dropWhile_head_false rest d ls hdl
              · refine ih (rest.dropWhile isWsJS) ?_
                calc (rest.dropWhile isWsJS).length ≤ rest.length :=
                      dropWhile_length_le rest
                  _ ≤ n := by simpa using Nat.le_of_succ_le_succ hl
            · have hc0 : isWsJS c = false := by simpa using hc
              have hout : collapseWsAux false (c :: rest) =
                  c :: collapseWsAux false rest := by
                simp [collapseWsAux, hc0]
              rw [hout]
              exact WsCollapse.char hc0
                (ih rest (by simpa using Nat.le_of_succ_le_succ hl))
  exact key l.length l (Nat.le_refl _)

/-- Method `createPortfolio` in src/src/portfolio.js: when the payload's
title is truthy, derive the slug from it before insertion; the inserted
document is the payload with the derived slug. -/
def createPortfolio (data : MDoc) : MDoc :=
  match getField data "title" with
  | some (.mStr t) => if t = "" then data else setKey data "slug" (.mStr (slugify t))
  | _ => data

/-- Claim C5: for every creation payload with a (truthy) title, the stored
slug is the title lowercased with every maximal whitespace run replaced by a
single underscore, and in particular title `My Cool Project` yields slug
`my_cool_project`. -/
theorem create_derives_slug (data : MDoc) (t : String)
    (ht : getField data "title" = some (.mStr t)) (hne : t ≠ "") :
    getField (createPortfolio data) "slug" = some (.mStr (slugify t)) ∧
    WsCollapse (t.toList.map Char.toLower) (slugify t).toList ∧
    slugify "My Cool Project" = "my_cool_project" := by
  refine ⟨?_, ?_, ?_⟩
  · simp only [createPortfolio, ht]
    rw [if_neg hne]
    exact getField_setKey_self data "slug" (.mStr (slugify t))
  · simpa [slugify] using wsCollapse_replaceWsRuns (t.toList.map Char.toLower)
  · rfl

/-- Claim C5 witness: the concrete payload with title `My Cool Project`
stores slug `my_cool_project`. -/
theorem create_derives_slug_witness :
    getField (createPortfolio [("title", MValue.mStr "My Cool Project")]) "slug" =
      some (.mStr "my_cool_project") := by
  have h := (create_derives_slug [("title", MValue.mStr "My Cool Project")]
    "My Cool Project" (by rfl) (by decide))
  rw [h.2.2] at h
  exact h.1

/-! ## Profile store (src/unnamed me.js: MeAPI)

The `me` collection is meant to hold a single profile document.  The seed
routine inserts one default document only when the collection is empty, and
`updateMe` runs `findOneAndUpdate({}, {$set: {...data, updatedAt: now}},
{upsert: false})`, which matches the first document and never inserts. -/

/-- The default profile document inserted by `MeAPI.initializeMe`
(`new Date()` is the seed time). -/
def defaultProfile (now : Nat) : MDoc :=
  [("name", .mStr "Azizjon Nigmatjonov"),
   ("email", .mStr "azizjonnigmatjonov@gmail.com"),
   ("uid", .mStr "68dd78ce3fa15036f9cedce4"),
   ("createdAt", .mDate now),
   ("updatedAt", .mDate now),
   ("role", .mStr "admin"),
   ("status", .mStr "active"),
   ("profilePicture", .mStr "firebasestorage-cv-jpeg-url"),
   ("bio", .mStr "I am a software engineer"),
   ("phone", .mStr "+998994912830")]

/-- Method `MeAPI.initializeMe`: insert the default document when
`countDocuments()` is zero. -/
def initializeMe (coll : List MDoc) (now : Nat) : List MDoc :=
  if coll.length = 0 then [defaultProfile now] else coll

/-- Running the seed routine once per listed time stamp, in order. -/
def runSeeds (ts : List Nat) (coll : List MDoc) : List MDoc :=
  ts.foldl (fun c t => initializeMe c t) coll

/-- Method `MeAPI.updateMe`: `$set` of the provided fields plus an
`updatedAt` stamp on the first document (`findOneAndUpdate({}, …)`), with
`upsert: false`, so an empty collection stays empty and the result is
`null`. -/
def updateMe (coll : List MDoc) (data : MDoc) (now : Nat) :
    Option MDoc × List MDoc :=
  match coll with
  | [] => (none, [])
  | d :: rest =>
      let updateFields := setKey data "updatedAt" (.mDate now)
      let d0 := applySet d updateFields
      (some d0, d0 :: rest)

theorem mem_keys_setKey (d : MDoc) (k a : String) (v : MValue) :
    a ∈ (setKey d k v).map Prod.fst ↔ a ∈ d.map Prod.fst ∨ a = k := by
  induction d with
  | nil => simp [setKey]
  | cons kv rest ih =>
      by_cases hk : kv.1 = k
      · rw [show setKey (kv :: rest) k v = (k, v) :: rest by
          simp [setKey, hk]]
        simp [hk]
        tauto
      · rw [show setKey (kv :: rest) k v = kv :: setKey rest k v by
          simp [setKey, hk]]
        simp [ih]
        tauto

theorem setKey_keys_nodup (d : MDoc) (k : String) (v : MValue)
    (h : (d.map Prod.fst).Nodup) : ((setKey d k v).map Prod.fst).Nodup := by
  induction d with
  | nil => simp [setKey]
  | cons kv rest ih =>
      simp only [List.map_cons, List.nodup_cons] at h
      by_cases hk : kv.1 = k
      · rw [show setKey (kv :: rest) k v = (k, v) :: rest by
          simp [setKey, hk]]
        simp only [List.map_cons, List.nodup_cons]
        exact ⟨hk ▸ h.1, h.2⟩
      · rw [show setKey (kv :: rest) k v = kv :: setKey rest k v by
          simp [setKey, hk]]
        simp only [List.map_cons, List.nodup_cons]
        refine ⟨?_, ih h.2⟩
        intro hmem
        rcases (mem_keys_setKey rest k kv.1 v).mp hmem with hmem | hmem
        · exact h.1 hmem
        · exact hk hmem

theorem runSeeds_singleton (ts : List Nat) (coll : List MDoc)
    (h : coll.length = 1) : (runSeeds ts coll).length = 1 := by
  induction ts generalizing coll with
  | nil => simpa [runSeeds] using h
  | cons t ts ih =>
      have hne : ¬coll.length = 0 := by omega
      have hne2 : coll ≠ [] := by
        intro he
        rw [he] at h
        simp at h
      have : runSeeds (t :: ts) coll = runSeeds ts coll := by
        simp [runSeeds, initializeMe, hne, hne2]
      rw [this]
      exact ih coll h

/-- Claim C7: seeding any positive number of times from the empty collection
yields exactly one profile document; `updateMe` never creates a document when
none exists, preserves the number of documents, and merges exactly the
provided fields plus the `updatedAt` stamp into the first document. -/
theorem profile_singleton_and_merge :
    (∀ ts : List Nat, ts ≠ [] → (runSeeds ts []).length = 1) ∧
    (∀ (data : MDoc) (now : Nat), updateMe [] data now = (none, [])) ∧
    (∀ (coll : List MDoc) (data : MDoc) (now : Nat),
      ((updateMe coll data now).2).length = coll.length) ∧
    (∀ (d : MDoc) (rest : List MDoc) (data : MDoc) (now : Nat),
      (data.map Prod.fst).Nodup →
      updateMe (d :: rest) data now =
        (some (applySet d (setKey data "updatedAt" (.mDate now))),
         applySet d (setKey data "updatedAt" (.mDate now)) :: rest) ∧
      getField (applySet d (setKey data "updatedAt" (.mDate now)))
        "updatedAt" = some (.mDate now) ∧
      (∀ k, k ≠ "updatedAt" →
        getField (applySet d (setKey data "updatedAt" (.mDate now))) k =
          match getField data k with
          | some v => some v
          | none => getField d k)) := by
  refine ⟨?_, fun data now => rfl, ?_, ?_⟩
  · intro ts hne
    match ts with
    | t :: ts =>
        have h1 : runSeeds (t :: ts) [] = runSeeds ts [defaultProfile t] := by
          simp [runSeeds, initializeMe]
        rw [h1]
        exact runSeeds_singleton ts [defaultProfile t] (by simp)
  · intro coll data now
    match coll with
    | [] => rfl
    | d :: rest => simp [updateMe]
  · intro d rest data now hnd
    have hnd0 : ((setKey data "updatedAt" (.mDate now)).map Prod.fst).Nodup :=
      setKey_keys_nodup data "updatedAt" (.mDate now) hnd
    refine ⟨rfl, ?_, ?_⟩
    · rw [getField_applySet _ d "updatedAt" hnd0, getField_setKey_self]
    · intro k hk
      rw [getField_applySet _ d k hnd0,
          getField_setKey_ne data "updatedAt" k (.mDate now) hk]

/-- Claim C7 witness: two consecutive seeds at times 1 and 2 leave one
document, updating the empty collection creates nothing, and a concrete
update stamps `updatedAt` while keeping the unprovided `name` field. -/
theorem profile_singleton_and_merge_witness :
    (runSeeds [1, 2] []).length = 1 ∧
    updateMe [] [("bio", MValue.mStr "x")] 7 = (none, []) ∧
    getField (applySet [("name", MValue.mStr "A"), ("bio", MValue.mStr "old")]
      (setKey [("bio", MValue.mStr "x")] "updatedAt" (.mDate 7))) "name" =
      some (MValue.mStr "A") := by
  refine ⟨profile_singleton_and_merge.1 [1, 2] (by decide),
          profile_singleton_and_merge.2.1 [("bio", MValue.mStr "x")] 7, ?_⟩
  have h := (profile_singleton_and_merge.2.2.2
    [("name", MValue.mStr "A"), ("bio", MValue.mStr "old")] []
    [("bio", MValue.mStr "x")] 7 (by decide)).2.2 "name" (by decide)
  simpa using h

/-! ## Upload pipeline (src/src/upload.js and src/src/imagebb.js)

The remote image host, its HTTP transport and the JSON decoding are external
collaborators, abstracted as an oracle from the three request fields
`uploadImageToImageBB` sends — file buffer, original name, MIME type — to
either a public URL or a failure (non-2xx response, `success: false`,
network error).  Multer is configured in upload.js with `fileFilter` and a
`fileSize` limit; per its contract it rejects a violating file before the
route handler, and with it the remote call, ever runs. -/

/-- An in-memory uploaded file as multer hands it to the route handler. -/
structure UploadFile where
  originalname : String
  mimetype : String
  size : Nat
  buffer : List Nat
  deriving DecidableEq, Repr

/-- Behaviour of one remote upload request, abstracted. -/
abbrev RemoteHost := List Nat → String → String → Except String String

/-- Fallback URL built in the `catch` block of `uploadImageToImageBB`
(percent-encoding of the name by `encodeURIComponent` is an external detail
left unmodelled). -/
def placeholderUrl (originalName : String) : String :=
  "https://via.placeholder.com/800x600/cccccc/969696?text=" ++ originalName

/-- Function `uploadImageToImageBB` (src/src/imagebb.js): it takes only the
buffer, original name and MIME type; any error from the remote interaction
is caught and degraded to the placeholder URL, so it always returns a URL. -/
def uploadImageToImageBB (remote : RemoteHost) (fileBuffer : List Nat)
    (originalName : String) (mimetype : String) : String :=
  match remote fileBuffer originalName mimetype with
  | .ok url => url
  | .error _ => placeholderUrl originalName

/-- Allow-list of `fileFilter` in src/src/upload.js. -/
def allowedTypes : List String :=
  ["image/jpeg", "image/jpg", "image/png", "image/gif", "image/webp"]

/-- Predicate of `fileFilter`: accept exactly the allow-listed MIME types. -/
def fileFilterAccepts (mimetype : String) : Bool := allowedTypes.contains mimetype

/-- Multer `limits.fileSize`: 5 * 1024 * 1024 bytes. -/
def fileSizeLimit : Nat := 5 * 1024 * 1024

/-- One persisted image-metadata row (`saveImageMetadata(url, name, folder)`). -/
structure MetaRow where
  url : String
  originalName : String
  folder : String
  deriving DecidableEq, Repr

/-- Resolution of `req.body.folder || 'images'` (empty string is falsy). -/
def resolveFolder (folder : Option String) : String :=
  match folder with
  | none => "images"
  | some s => if s = "" then "images" else s

/-- Observable result of the single-upload route handler: the URL answered
to the client, the remote calls made (argument triples), and the metadata
rows written. -/
structure SingleUploadTrace where
  imageUrl : String
  remoteCalls : List (List Nat × String × String)
  metadata : List MetaRow
  deriving DecidableEq, Repr

/-- Route handler `handleImageUpload` on a file that multer accepted:
resolve the folder, call `uploadImageToImageBB` with the file's buffer, name
and MIME type (the folder argument is dropped — the function declares only
three parameters), persist a metadata row, respond with the URL. -/
def handleImageUpload (remote : RemoteHost) (f : UploadFile)
    (folder : Option String) : SingleUploadTrace :=
  let fold := resolveFolder folder
  let imageUrl := uploadImageToImageBB remote f.buffer f.originalname f.mimetype
  { imageUrl := imageUrl,
    remoteCalls := [(f.buffer, f.originalname, f.mimetype)],
    metadata := [{ url := imageUrl, originalName := f.originalname, folder := fold }] }

/-- Outcome of the upload endpoint including multer's screening. -/
inductive UploadOutcome where
  | rejected (reason : String)
  | responded (imageUrl : String)
  deriving DecidableEq, Repr

/-- Whether the outcome is a pre-handler rejection. -/
def isRejected : UploadOutcome → Bool
  | .rejected _ => true
  | .responded _ => false

/-- Endpoint trace: outcome plus the remote calls and metadata writes. -/
structure EndpointTrace where
  outcome : UploadOutcome
  remoteCalls : List (List Nat × String × String)
  metadata : List MetaRow
  deriving DecidableEq, Repr

/-- The `POST /api/upload-image` pipeline: multer screens the MIME type with
`fileFilter` and the size with `limits.fileSize`; only an accepted file
reaches `handleImageUpload`. -/
def uploadImageEndpoint (remote : RemoteHost) (f : UploadFile)
    (folder : Option String) : EndpointTrace :=
  if fileFilterAccepts f.mimetype = false then
    { outcome := .rejected
        "Invalid file type. Only JPEG, PNG, GIF, and WebP images are allowed.",
      remoteCalls := [], metadata := [] }
  else if fileSizeLimit < f.size then
    { outcome := .rejected "File too large", remoteCalls := [], metadata := [] }
  else
    let t := handleImageUpload remote f folder
    { outcome := .responded t.imageUrl,
      remoteCalls := t.remoteCalls, metadata := t.metadata }

/-- Claim C8: a file over 5 MiB or with a MIME type outside the allow-list is
rejected before any remote call — the endpoint makes zero remote calls and
`uploadImageToImageBB` is unreachable for such inputs. -/
theorem invalid_upload_rejected_before_remote (remote : RemoteHost)
    (f : UploadFile) (folder : Option String)
    (h : fileSizeLimit < f.size ∨ fileFilterAccepts f.mimetype = false) :
    (uploadImageEndpoint remote f folder).remoteCalls = [] ∧
    isRejected (uploadImageEndpoint remote f folder).outcome = true := by
  rcases h with h | h
  · by_cases hm : fileFilterAccepts f.mimetype = false
    · constructor <;> simp [uploadImageEndpoint, hm, isRejected]
    · constructor <;> simp [uploadImageEndpoint, hm, h, isRejected]
  · constructor <;> simp [uploadImageEndpoint, h, isRejected]

/-- Claim C8 witness: a 6 MiB JPEG and a BMP file are both rejected with no
remote call. -/
theorem invalid_upload_rejected_before_remote_witness :
    (uploadImageEndpoint (fun _ _ _ => .ok "https://i.ibb.co/ok.jpg")
      { originalname := "big.jpg", mimetype := "image/jpeg",
        size := 6 * 1024 * 1024, buffer := [] } none).remoteCalls = [] ∧
    (uploadImageEndpoint (fun _ _ _ => .ok "https://i.ibb.co/ok.jpg")
      { originalname := "pic.bmp", mimetype := "image/bmp",
        size := 1024, buffer := [] } none).remoteCalls = [] :=
  ⟨(invalid_upload_rejected_before_remote (fun _ _ _ => .ok "https://i.ibb.co/ok.jpg")
      { originalname := "big.jpg", mimetype := "image/jpeg",
        size := 6 * 1024 * 1024, buffer := [] } none (by left; decide)).1,
   (invalid_upload_rejected_before_remote (fun _ _ _ => .ok "https://i.ibb.co/ok.jpg")
      { originalname := "pic.bmp", mimetype := "image/bmp",
        size := 1024, buffer := [] } none (by right; decide)).1⟩

/-- Route handler `handleMultipleImagesUpload`: reject an empty batch with
`'No files uploaded'`, else map every file through `uploadImageToImageBB`
(`Promise.all` keeps submission order) and answer the URL list. -/
def handleMultipleImagesUpload (remote : RemoteHost) (files : List UploadFile) :
    Except String (List String) :=
  if files.isEmpty then .error "No files uploaded"
  else .ok (files.map (fun file =>
    uploadImageToImageBB remote file.buffer file.originalname file.mimetype))

/-- Claim C9: a multi-file upload of N non-empty files (N ≤ 10) answers
exactly N URLs in submission order — position i holds the remote URL of file
i, and a remote failure for file i yields the placeholder URL at position i
instead of failing the batch. -/
theorem multi_upload_count_order_fallback (remote : RemoteHost)
    (files : List UploadFile) (urls : List String)
    (hne : files ≠ []) (hcap : files.length ≤ 10)
    (h : handleMultipleImagesUpload remote files = .ok urls) :
    urls.length = files.length ∧
    (∀ (i : Nat) (file : UploadFile), files[i]? = some file →
      urls[i]? = some (uploadImageToImageBB remote file.buffer
        file.originalname file.mimetype)) ∧
    (∀ (i : Nat) (file : UploadFile) (e : String), files[i]? = some file →
      remote file.buffer file.originalname file.mimetype = .error e →
      urls[i]? = some (placeholderUrl file.originalname)) := by
  have hurl : urls = files.map (fun file =>
      uploadImageToImageBB remote file.buffer file.originalname file.mimetype) := by
    unfold handleMultipleImagesUpload at h
    rw [if_neg (by simpa [List.isEmpty_iff] using hne)] at h
    cases h
    rfl
  subst hurl
  refine ⟨by simp, ?_, ?_⟩
  · intro i file hf
    rw [List.getElem?_map, hf]
    rfl
  · intro i file e hf he
    rw [List.getElem?_map, hf]
    simp [uploadImageToImageBB, he]

/-- Claim C9 witness: three files where the remote call fails on the second
answer three URLs in order, with the placeholder in position 1. -/
theorem multi_upload_count_order_fallback_witness :
    ((handleMultipleImagesUpload
        (fun _ n _ => if n = "b.png" then .error "HTTP error" else .ok ("https://i.ibb.co/" ++ n))
        [{ originalname := "a.jpg", mimetype := "image/jpeg", size := 1, buffer := [] },
         { originalname := "b.png", mimetype := "image/png", size := 1, buffer := [] },
         { originalname := "c.gif", mimetype := "image/gif", size := 1, buffer := [] }] =
      .ok ["https://i.ibb.co/a.jpg",
           placeholderUrl "b.png",
           "https://i.ibb.co/c.gif"]) ∧
    ["https://i.ibb.co/a.jpg", placeholderUrl "b.png",
     "https://i.ibb.co/c.gif"].length = 3) := by
  have h := multi_upload_count_order_fallback
    (fun _ n _ => if n = "b.png" then .error "HTTP error" else .ok ("https://i.ibb.co/" ++ n))
    [{ originalname := "a.jpg", mimetype := "image/jpeg", size := 1, buffer := [] },
     { originalname := "b.png", mimetype := "image/png", size := 1, buffer := [] },
     { originalname := "c.gif", mimetype := "image/gif", size := 1, buffer := [] }]
    ["https://i.ibb.co/a.jpg", placeholderUrl "b.png", "https://i.ibb.co/c.gif"]
    (by decide) (by decide) (by rfl)
  exact ⟨by rfl, by simpa using h.1⟩

/-- Claim C10: two single-file uploads that differ only in the destination
folder behave identically at the remote-upload step (the function receives
only buffer, name and MIME type) and answer the same public URL; the folder
value lands only in the persisted metadata row. -/
theorem folder_noninterference (remote : RemoteHost) (f : UploadFile)
    (folder1 folder2 : Option String) :
    (handleImageUpload remote f folder1).imageUrl =
      (handleImageUpload remote f folder2).imageUrl ∧
    (handleImageUpload remote f folder1).remoteCalls =
      (handleImageUpload remote f folder2).remoteCalls ∧
    (handleImageUpload remote f folder1).metadata.map
        (fun m => (m.url, m.originalName)) =
      (handleImageUpload remote f folder2).metadata.map
        (fun m => (m.url, m.originalName)) ∧
    (handleImageUpload remote f folder1).metadata.map (fun m => m.folder) =
      [resolveFolder folder1] :=
  ⟨rfl, rfl, rfl, rfl⟩

end FullStackApp
